import Mathlib

/-!
Verification of the code-name duet matrix generator
(`generate_duet_matrices.py`).

The script draws four pairwise-disjoint random index sets from a shared pool
(green and black indexes for each of two players), builds one tagged board per
player, and serializes each board as a CSV grid.

The only source of nondeterminism in the script is `random.sample`; it is
embedded here with an explicit tape of random numbers (`tape : List Nat`): each
selection step consumes one tape entry and picks the remaining candidate at
position `entry % remaining`.  This captures exactly the support and the
without-replacement discipline of `random.sample`, and makes every function of
the script a pure, executable Lean function of its inputs and the tape.
File output is modelled by the string that the `write` calls accumulate.
-/

/-- Tile categories, from the `Tile` enum of the script: NEUTRAL, BLACK, GREEN. -/
inductive Tile where
  | NEUTRAL
  | BLACK
  | GREEN
deriving DecidableEq

/-- GREEN_AMOUNT_PER_PLAYER = 4 in the script. -/
def GREEN_AMOUNT_PER_PLAYER : Nat := 4

/-- BLACK_AMOUNT_PER_PLAYER = 1 in the script. -/
def BLACK_AMOUNT_PER_PLAYER : Nat := 1

/-- MAT_SIZE = 25 in the script, the default board size. -/
def MAT_SIZE : Nat := 25

/-- The name of a tile category (`Tile.name` in python), used by the CSV export. -/
def Tile.name : Tile → String
  | Tile.NEUTRAL => "NEUTRAL"
  | Tile.BLACK => "BLACK"
  | Tile.GREEN => "GREEN"

/-- Selection loop of uniform sampling without replacement, driven by the
random tape: each step picks the candidate at position `tape entry % remaining`
and removes it from the candidate list.  Returns the chosen elements in order
together with the unconsumed tape. -/
def sampleAux (l : List Nat) (amount : Nat) (tape : List Nat) :
    List Nat × List Nat :=
  match amount with
  | 0 => ([], tape)
  | a + 1 =>
    let pos := tape.headD 0 % l.length
    let x := l.getD pos 0
    let r := sampleAux (l.eraseIdx pos) a tape.tail
    (x :: r.1, r.2)

/-- Embedding of `random.sample(population, amount)`: samples `amount` distinct
positions of `population` without replacement.  `random.sample` raises
ValueError when `amount` exceeds the population size; that is modelled as
`none`. -/
def random_sample (l : List Nat) (amount : Nat) (tape : List Nat) :
    Option (List Nat × List Nat) :=
  if amount ≤ l.length then some (sampleAux l amount tape) else none

/-- Embedding of `randomly_choose_indexes`: samples `amount` indexes from the
available list, removes each chosen element from the list (the python code
mutates the list with `remove`; here the updated list is returned), and returns
the chosen indexes, the updated pool and the unconsumed tape. -/
def randomly_choose_indexes (available_indexes : List Nat) (amount : Nat)
    (tape : List Nat) : Option (List Nat × List Nat × List Nat) :=
  match random_sample available_indexes amount tape with
  | none => none
  | some (chosen_indexes, tape') =>
    some (chosen_indexes,
      chosen_indexes.foldl (fun l i => l.erase i) available_indexes, tape')

/-- Embedding of `generate_mat`: position `i` of the board is BLACK when `i` is
among the black indexes (checked first), otherwise GREEN when among the green
indexes, otherwise NEUTRAL. -/
def generate_mat (black_indexes : List Nat) (green_indexes : List Nat)
    (mat_size : Nat) : List Tile :=
  (List.range mat_size).map (fun i =>
    if i ∈ black_indexes then Tile.BLACK
    else if i ∈ green_indexes then Tile.GREEN
    else Tile.NEUTRAL)

/-- Embedding of `get_player_matrices`: initializes the pool to `[0, mat_size)`,
performs the four draws (green then black for player one, green then black for
player two) and builds the two boards.  A failing draw aborts the whole call
(`none`), exactly as the python exception would propagate. -/
def get_player_matrices (mat_size : Nat) (tape : List Nat) :
    Option (List Tile × List Tile) :=
  match randomly_choose_indexes (List.range mat_size) GREEN_AMOUNT_PER_PLAYER tape with
  | none => none
  | some (green1, available1, tape1) =>
    match randomly_choose_indexes available1 BLACK_AMOUNT_PER_PLAYER tape1 with
    | none => none
    | some (black1, available2, tape2) =>
      match randomly_choose_indexes available2 GREEN_AMOUNT_PER_PLAYER tape2 with
      | none => none
      | some (green2, available3, tape3) =>
        match randomly_choose_indexes available3 BLACK_AMOUNT_PER_PLAYER tape3 with
        | none => none
        | some (black2, _, _) =>
          some (generate_mat black1 green1 mat_size,
            generate_mat black2 green2 mat_size)

/-- Embedding of `write_matrix_to_csv`: the assert demands that the board
length be a perfect square (`none` models the AssertionError); on success the
result is the string accumulated by the `write` calls: for each row, the name
of each cell followed by a comma, then a CRLF line ending. -/
def write_matrix_to_csv (matrix : List Tile) : Option String :=
  let sqrt_len := Nat.sqrt matrix.length
  if sqrt_len * sqrt_len = matrix.length then
    some ((List.range sqrt_len).foldl (fun acc row =>
      ((List.range sqrt_len).foldl (fun acc2 col =>
        acc2 ++ ((matrix.getD (row * sqrt_len + col) Tile.NEUTRAL).name ++ ","))
        acc) ++ "\r\n") "")
  else none

/-- The positions of a board that hold a special (non-NEUTRAL) tile. -/
def special_indexes (matrix : List Tile) : List Nat :=
  (List.range matrix.length).filter
    (fun i => decide (matrix.getD i Tile.NEUTRAL ≠ Tile.NEUTRAL))

/-! ### Properties of the sampling loop -/

/-- A position-indexed element of a duplicate-free list does not survive the
removal of that position. -/
theorem getElem_not_mem_eraseIdx {l : List Nat} (hnd : l.Nodup) {pos : Nat}
    (h : pos < l.length) : l[pos] ∉ l.eraseIdx pos := by
  intro hmem
  rcases List.mem_eraseIdx_iff_getElem.mp hmem with ⟨i, hi, hne, hieq⟩
  exact hne ((hnd.getElem_inj_iff).mp hieq)

/-- Unfolding equation of the sampling loop in the successor case. -/
theorem sampleAux_succ (l : List Nat) (a : Nat) (tape : List Nat) :
    sampleAux l (a + 1) tape =
      (l.getD (tape.headD 0 % l.length) 0 ::
        (sampleAux (l.eraseIdx (tape.headD 0 % l.length)) a tape.tail).1,
       (sampleAux (l.eraseIdx (tape.headD 0 % l.length)) a tape.tail).2) := rfl

/-- The sampling loop returns exactly the requested number of elements. -/
theorem sampleAux_length {amount : Nat} : ∀ {l tape : List Nat},
    amount ≤ l.length → (sampleAux l amount tape).1.length = amount := by
  induction amount with
  | zero => intro l tape _; rfl
  | succ a ih =>
    intro l tape h
    have hlen : (l.eraseIdx (tape.headD 0 % l.length)).length = l.length - 1 :=
      List.length_eraseIdx_of_lt (Nat.mod_lt _ (Nat.lt_of_lt_of_le (Nat.succ_pos a) h))
    rw [sampleAux_succ, List.length_cons, ih (by omega)]

/-- Every element returned by the sampling loop comes from the candidate
list. -/
theorem sampleAux_mem {amount : Nat} : ∀ {l tape : List Nat},
    amount ≤ l.length → ∀ x ∈ (sampleAux l amount tape).1, x ∈ l := by
  induction amount with
  | zero => intro l tape _ x hx; simp [sampleAux] at hx
  | succ a ih =>
    intro l tape h x hx
    have hpos : tape.headD 0 % l.length < l.length :=
      Nat.mod_lt _ (Nat.lt_of_lt_of_le (Nat.succ_pos a) h)
    have hlen : (l.eraseIdx (tape.headD 0 % l.length)).length = l.length - 1 :=
      List.length_eraseIdx_of_lt hpos
    rw [sampleAux_succ] at hx
    rcases List.mem_cons.mp hx with hx | hx
    · have hgetD : l.getD (tape.headD 0 % l.length) 0 = l[tape.headD 0 % l.length] := by
        rw [List.getD_eq_getElem?_getD, List.getElem?_eq_getElem hpos]; rfl
      rw [hx, hgetD]
      exact List.getElem_mem hpos
    · exact (List.eraseIdx_sublist l _).subset (ih (by omega) x hx)

/-- The sampling loop never repeats an element of a duplicate-free candidate
list. -/
theorem sampleAux_nodup {amount : Nat} : ∀ {l tape : List Nat}, l.Nodup →
    amount ≤ l.length → (sampleAux l amount tape).1.Nodup := by
  induction amount with
  | zero => intro l tape _ _; exact List.nodup_nil
  | succ a ih =>
    intro l tape hnd h
    have hpos : tape.headD 0 % l.length < l.length :=
      Nat.mod_lt _ (Nat.lt_of_lt_of_le (Nat.succ_pos a) h)
    have hlen : (l.eraseIdx (tape.headD 0 % l.length)).length = l.length - 1 :=
      List.length_eraseIdx_of_lt hpos
    have hgetD : l.getD (tape.headD 0 % l.length) 0 = l[tape.headD 0 % l.length] := by
      rw [List.getD_eq_getElem?_getD, List.getElem?_eq_getElem hpos]; rfl
    rw [sampleAux_succ, List.nodup_cons]
    constructor
    · intro hmem
      exact getElem_not_mem_eraseIdx hnd hpos
        (hgetD ▸ sampleAux_mem (by omega) _ hmem)
    · exact ih (hnd.eraseIdx _) (by omega)

/-! ### Properties of the pool update (repeated `remove` calls) -/

/-- Erasing a list of elements keeps the remaining pool a sublist of the
original pool: only deletions happen, never reordering. -/
theorem foldl_erase_sublist : ∀ (c pool : List Nat),
    List.Sublist (c.foldl (fun l i => l.erase i) pool) pool := by
  intro c
  induction c with
  | nil => intro pool; exact List.Sublist.refl pool
  | cons x xs ih =>
    intro pool
    exact (ih (pool.erase x)).trans (List.erase_sublist x pool)

/-- Membership in the updated pool, for a duplicate-free pool: exactly the
elements that were present and were not erased remain. -/
theorem mem_foldl_erase : ∀ (c pool : List Nat), pool.Nodup → ∀ x,
    (x ∈ c.foldl (fun l i => l.erase i) pool ↔ x ∈ pool ∧ x ∉ c) := by
  intro c
  induction c with
  | nil => intro pool _ x; simp
  | cons y ys ih =>
    intro pool hnd x
    simp only [List.foldl_cons, List.mem_cons]
    rw [ih (pool.erase y) (hnd.erase y), hnd.mem_erase_iff]
    constructor
    · rintro ⟨⟨hxy, hx⟩, hys⟩
      exact ⟨hx, fun h => h.elim (fun h1 => hxy h1) hys⟩
    · rintro ⟨hx, hmem⟩
      exact ⟨⟨fun h => hmem (Or.inl h), hx⟩, fun h => hmem (Or.inr h)⟩

/-- Erasing a duplicate-free list of present elements shrinks the pool by
exactly the number of erased elements. -/
theorem length_foldl_erase : ∀ (c pool : List Nat), c.Nodup →
    (∀ x ∈ c, x ∈ pool) →
    (c.foldl (fun l i => l.erase i) pool).length = pool.length - c.length := by
  intro c
  induction c with
  | nil => intro pool _ _; rfl
  | cons y ys ih =>
    intro pool hnd hsub
    simp only [List.foldl_cons, List.length_cons]
    have hy : y ∈ pool := hsub y (List.mem_cons_self y ys)
    have hnd' := List.nodup_cons.mp hnd
    have hsub' : ∀ x ∈ ys, x ∈ pool.erase y := by
      intro x hx
      have hne : x ≠ y := fun h => hnd'.1 (by rw [← h]; exact hx)
      exact (List.mem_erase_of_ne hne).mpr (hsub x (List.mem_cons_of_mem y hx))
    rw [ih (pool.erase y) hnd'.2 hsub', List.length_erase_of_mem hy]
    omega

/-! ### Specification of `randomly_choose_indexes` -/

/-- Requesting more indexes than are available makes the draw fail, modelling
the ValueError of `random.sample`. -/
theorem rci_insufficient {pool : List Nat} {amount : Nat} {tape : List Nat}
    (h : pool.length < amount) :
    randomly_choose_indexes pool amount tape = none := by
  unfold randomly_choose_indexes random_sample
  rw [if_neg (by omega)]

/-- A successful draw can only have requested at most the pool size. -/
theorem rci_some_le {pool : List Nat} {amount : Nat} {tape : List Nat}
    {res : List Nat × List Nat × List Nat}
    (h : randomly_choose_indexes pool amount tape = some res) :
    amount ≤ pool.length := by
  by_contra hlt
  rw [rci_insufficient (by omega)] at h
  exact Option.noConfusion h

/-- A draw from a sufficiently large pool succeeds, and returns the sampled
indexes together with the pool purged of them. -/
theorem rci_success {pool : List Nat} {amount : Nat} {tape : List Nat}
    (h : amount ≤ pool.length) :
    randomly_choose_indexes pool amount tape =
      some ((sampleAux pool amount tape).1,
        (sampleAux pool amount tape).1.foldl (fun l i => l.erase i) pool,
        (sampleAux pool amount tape).2) := by
  unfold randomly_choose_indexes random_sample
  rw [if_pos h]

/-- Full postcondition of a successful draw from a duplicate-free pool: the
chosen indexes are distinct, number exactly `amount` and come from the pool;
the updated pool is a duplicate-free sublist of the old one consisting of
exactly the unchosen elements, and its size drops by exactly `amount`. -/
theorem rci_props {pool : List Nat} {amount : Nat} {tape : List Nat}
    {c p' t' : List Nat} (hnd : pool.Nodup)
    (heq : randomly_choose_indexes pool amount tape = some (c, p', t')) :
    c.Nodup ∧ c.length = amount ∧ (∀ x ∈ c, x ∈ pool) ∧
      List.Sublist p' pool ∧ p'.Nodup ∧ (∀ x, x ∈ p' ↔ x ∈ pool ∧ x ∉ c) ∧
      p'.length = pool.length - amount := by
  have hle : amount ≤ pool.length := rci_some_le heq
  rw [rci_success hle] at heq
  have h := Option.some.inj heq
  rw [Prod.mk.injEq, Prod.mk.injEq] at h
  obtain ⟨hc, hp, ht⟩ := h
  subst hc
  subst hp
  refine ⟨sampleAux_nodup hnd hle, sampleAux_length hle, sampleAux_mem hle, ?_, ?_, ?_, ?_⟩
  · exact foldl_erase_sublist _ pool
  · exact (foldl_erase_sublist _ pool).nodup hnd
  · exact mem_foldl_erase _ pool hnd
  · rw [length_foldl_erase _ pool (sampleAux_nodup hnd hle) (sampleAux_mem hle),
      sampleAux_length hle]

/-! ### Properties of `generate_mat` -/

/-- A generated board always has exactly the requested length. -/
theorem generate_mat_length (b g : List Nat) (n : Nat) :
    (generate_mat b g n).length = n := by
  unfold generate_mat
  rw [List.length_map, List.length_range]

/-- Pointwise description of a generated board: black indexes win over green
ones, and every unlisted position is neutral. -/
theorem generate_mat_getD (b g : List Nat) {i n : Nat} (h : i < n) :
    (generate_mat b g n).getD i Tile.NEUTRAL =
      if i ∈ b then Tile.BLACK else if i ∈ g then Tile.GREEN
      else Tile.NEUTRAL := by
  unfold generate_mat
  rw [List.getD_eq_getElem?_getD, List.getElem?_map, List.getElem?_range h]
  rfl

/-- Each entry of a tile list is one of the three categories, so the three
counts add up to the length. -/
theorem count_tiles_split : ∀ (m : List Tile),
    m.count Tile.NEUTRAL + m.count Tile.BLACK + m.count Tile.GREEN
      = m.length := by
  intro m
  induction m with
  | nil => rfl
  | cons t ts ih => cases t <;> simp [List.count_cons] <;> omega

/-- Filtering `[0, n)` by a predicate that carves out exactly a duplicate-free
list `S` of values below `n` yields a permutation of `S`. -/
theorem filter_range_perm (S : List Nat) (n : Nat) (p : Nat → Bool)
    (hnd : S.Nodup) (hlt : ∀ x ∈ S, x < n)
    (hp : ∀ i, i < n → (p i = true ↔ i ∈ S)) :
    ((List.range n).filter p).Perm S := by
  apply (List.perm_ext_iff_of_nodup ((List.nodup_range n).filter p) hnd).mpr
  intro a
  rw [List.mem_filter, List.mem_range]
  constructor
  · rintro ⟨ha, hpa⟩
    exact (hp a ha).mp hpa
  · intro ha
    exact ⟨hlt a ha, (hp a (hlt a ha)).mpr ha⟩

/-- The number of BLACK entries of a generated board is the number of black
indexes, provided those are distinct and within range. -/
theorem count_generate_mat_black (b g : List Nat) (n : Nat) (hnd : b.Nodup)
    (hlt : ∀ x ∈ b, x < n) :
    (generate_mat b g n).count Tile.BLACK = b.length := by
  unfold generate_mat
  rw [List.count_eq_countP, List.countP_map, List.countP_eq_length_filter]
  refine (filter_range_perm b n _ hnd hlt ?_).length_eq
  intro i hi
  by_cases hb : i ∈ b
  · simp [Function.comp, hb]
  · by_cases hg : i ∈ g <;> simp [Function.comp, hb, hg]

/-- The number of GREEN entries of a generated board is the number of green
indexes, provided those are distinct, within range and not shadowed by black
indexes. -/
theorem count_generate_mat_green (b g : List Nat) (n : Nat) (hnd : g.Nodup)
    (hlt : ∀ x ∈ g, x < n) (hdisj : ∀ x ∈ g, x ∉ b) :
    (generate_mat b g n).count Tile.GREEN = g.length := by
  unfold generate_mat
  rw [List.count_eq_countP, List.countP_map, List.countP_eq_length_filter]
  refine (filter_range_perm g n _ hnd hlt ?_).length_eq
  intro i hi
  by_cases hg : i ∈ g
  · simp [Function.comp, hdisj i hg, hg]
  · by_cases hb : i ∈ b <;> simp [Function.comp, hb, hg]


/-! ### Structure of a successful generation run -/

/-- A successful `get_player_matrices` run produces boards built from four
draws of distinct, in-range, pairwise-disjoint index lists of the configured
per-player sizes. -/
theorem gpm_some {s : Nat} {tape : List Nat} {m1 m2 : List Tile}
    (heq : get_player_matrices s tape = some (m1, m2)) :
    ∃ g1 b1 g2 b2 : List Nat,
      m1 = generate_mat b1 g1 s ∧ m2 = generate_mat b2 g2 s ∧
      g1.Nodup ∧ b1.Nodup ∧ g2.Nodup ∧ b2.Nodup ∧
      g1.length = GREEN_AMOUNT_PER_PLAYER ∧
      b1.length = BLACK_AMOUNT_PER_PLAYER ∧
      g2.length = GREEN_AMOUNT_PER_PLAYER ∧
      b2.length = BLACK_AMOUNT_PER_PLAYER ∧
      (∀ x ∈ g1, x < s) ∧ (∀ x ∈ b1, x < s) ∧
      (∀ x ∈ g2, x < s) ∧ (∀ x ∈ b2, x < s) ∧
      List.Disjoint g1 b1 ∧ List.Disjoint g1 g2 ∧ List.Disjoint g1 b2 ∧
      List.Disjoint b1 g2 ∧ List.Disjoint b1 b2 ∧ List.Disjoint g2 b2 := by
  unfold get_player_matrices at heq
  split at heq
  · exact Option.noConfusion heq
  rename_i g1 a1 t1 h1
  split at heq
  · exact Option.noConfusion heq
  rename_i b1 a2 t2 h2
  split at heq
  · exact Option.noConfusion heq
  rename_i g2 a3 t3 h3
  split at heq
  · exact Option.noConfusion heq
  rename_i b2 a4 t4 h4
  have hpair := Option.some.inj heq
  have hm1 : m1 = generate_mat b1 g1 s := (congrArg Prod.fst hpair).symm
  have hm2 : m2 = generate_mat b2 g2 s := (congrArg Prod.snd hpair).symm
  have hnd0 : (List.range s).Nodup := List.nodup_range s
  obtain ⟨hg1nd, hg1len, hg1mem, _, hnd1, ha1mem, _⟩ := rci_props hnd0 h1
  obtain ⟨hb1nd, hb1len, hb1mem, _, hnd2, ha2mem, _⟩ := rci_props hnd1 h2
  obtain ⟨hg2nd, hg2len, hg2mem, _, hnd3, ha3mem, _⟩ := rci_props hnd2 h3
  obtain ⟨hb2nd, hb2len, hb2mem, _, _, _, _⟩ := rci_props hnd3 h4
  have hg1lt : ∀ x ∈ g1, x < s := fun x hx => List.mem_range.mp (hg1mem x hx)
  have hb1a1 : ∀ x ∈ b1, x ∈ List.range s ∧ x ∉ g1 :=
    fun x hx => (ha1mem x).mp (hb1mem x hx)
  have hg2a2 : ∀ x ∈ g2, (x ∈ List.range s ∧ x ∉ g1) ∧ x ∉ b1 := by
    intro x hx
    have := (ha2mem x).mp (hg2mem x hx)
    exact ⟨(ha1mem x).mp this.1, this.2⟩
  have hb2a3 : ∀ x ∈ b2, ((x ∈ List.range s ∧ x ∉ g1) ∧ x ∉ b1) ∧ x ∉ g2 := by
    intro x hx
    have h3m := (ha3mem x).mp (hb2mem x hx)
    have h2m := (ha2mem x).mp h3m.1
    exact ⟨⟨(ha1mem x).mp h2m.1, h2m.2⟩, h3m.2⟩
  refine ⟨g1, b1, g2, b2, hm1, hm2, hg1nd, hb1nd, hg2nd, hb2nd,
    hg1len, hb1len, hg2len, hb2len, hg1lt, ?_, ?_, ?_, ?_, ?_, ?_, ?_, ?_, ?_⟩
  · exact fun x hx => List.mem_range.mp (hb1a1 x hx).1
  · exact fun x hx => List.mem_range.mp (hg2a2 x hx).1.1
  · exact fun x hx => List.mem_range.mp (hb2a3 x hx).1.1.1
  · exact fun x hxg hxb => (hb1a1 x hxb).2 hxg
  · exact fun x hxg hxg2 => (hg2a2 x hxg2).1.2 hxg
  · exact fun x hxg hxb2 => (hb2a3 x hxb2).1.1.2 hxg
  · exact fun x hxb hxg2 => (hg2a2 x hxg2).2 hxb
  · exact fun x hxb hxb2 => (hb2a3 x hxb2).1.2 hxb
  · exact fun x hxg2 hxb2 => (hb2a3 x hxb2).2 hxg2

/-! ### String accumulation lemmas for the CSV export -/

/-- Folding string concatenation starting from `init` prepends `init` to the
join of the pieces. -/
theorem string_foldl_append : ∀ (ss : List String) (init : String),
    ss.foldl (fun acc s => acc ++ s) init = init ++ String.join ss := by
  intro ss
  induction ss with
  | nil => intro init; exact (String.append_empty init).symm
  | cons s rest ih =>
    intro init
    have hjoin : String.join (s :: rest) = s ++ String.join rest := by
      show (s :: rest).foldl (fun acc t => acc ++ t) "" = s ++ String.join rest
      rw [List.foldl_cons, ih, String.empty_append]
    rw [List.foldl_cons, ih, hjoin, String.append_assoc]

/-- A fold that appends one piece per element equals the initial string
followed by the join of the mapped pieces. -/
theorem foldl_append_map {α : Type} (g : α → String) (l : List α)
    (init : String) :
    l.foldl (fun acc x => acc ++ g x) init = init ++ String.join (l.map g) := by
  rw [← string_foldl_append (l.map g) init, List.foldl_map]

/-- Unfolding equation of `write_matrix_to_csv`. -/
theorem write_matrix_to_csv_eq (matrix : List Tile) :
    write_matrix_to_csv matrix =
      if Nat.sqrt matrix.length * Nat.sqrt matrix.length = matrix.length then
        some ((List.range (Nat.sqrt matrix.length)).foldl (fun acc row =>
          ((List.range (Nat.sqrt matrix.length)).foldl (fun acc2 col =>
            acc2 ++ ((matrix.getD (row * Nat.sqrt matrix.length + col)
              Tile.NEUTRAL).name ++ ",")) acc) ++ "\r\n") "")
      else none := rfl

/-- When all four draws succeed, `get_player_matrices` returns the two boards
built from them. -/
theorem gpm_success {s : Nat} {tape g1 a1 t1 b1 a2 t2 g2 a3 t3 b2 a4 t4 : List Nat}
    (h1 : randomly_choose_indexes (List.range s) GREEN_AMOUNT_PER_PLAYER tape
      = some (g1, a1, t1))
    (h2 : randomly_choose_indexes a1 BLACK_AMOUNT_PER_PLAYER t1 = some (b1, a2, t2))
    (h3 : randomly_choose_indexes a2 GREEN_AMOUNT_PER_PLAYER t2 = some (g2, a3, t3))
    (h4 : randomly_choose_indexes a3 BLACK_AMOUNT_PER_PLAYER t3 = some (b2, a4, t4)) :
    get_player_matrices s tape
      = some (generate_mat b1 g1 s, generate_mat b2 g2 s) := by
  unfold get_player_matrices
  rw [h1]
  dsimp only
  rw [h2]
  dsimp only
  rw [h3]
  dsimp only
  rw [h4]

/-- Generation succeeds on every board size large enough for the four draws. -/
theorem gpm_isSome {s : Nat} (tape : List Nat)
    (h : 2 * (GREEN_AMOUNT_PER_PLAYER + BLACK_AMOUNT_PER_PLAYER) ≤ s) :
    (get_player_matrices s tape).isSome = true := by
  have eG : GREEN_AMOUNT_PER_PLAYER = 4 := rfl
  have eB : BLACK_AMOUNT_PER_PLAYER = 1 := rfl
  rw [eG, eB] at h
  have hnd0 : (List.range s).Nodup := List.nodup_range s
  have hl0 : (List.range s).length = s := List.length_range s
  obtain ⟨g1, a1, t1, h1⟩ : ∃ g a t,
      randomly_choose_indexes (List.range s) GREEN_AMOUNT_PER_PLAYER tape
        = some (g, a, t) :=
    ⟨_, _, _, rci_success (by rw [hl0, eG]; omega)⟩
  obtain ⟨-, -, -, -, hnd1, -, hlen1⟩ := rci_props hnd0 h1
  rw [hl0, eG] at hlen1
  obtain ⟨b1, a2, t2, h2⟩ : ∃ b a t,
      randomly_choose_indexes a1 BLACK_AMOUNT_PER_PLAYER t1 = some (b, a, t) :=
    ⟨_, _, _, rci_success (by rw [hlen1, eB]; omega)⟩
  obtain ⟨-, -, -, -, hnd2, -, hlen2⟩ := rci_props hnd1 h2
  rw [hlen1, eB] at hlen2
  obtain ⟨g2, a3, t3, h3⟩ : ∃ g a t,
      randomly_choose_indexes a2 GREEN_AMOUNT_PER_PLAYER t2 = some (g, a, t) :=
    ⟨_, _, _, rci_success (by rw [hlen2, eG]; omega)⟩
  obtain ⟨-, -, -, -, hnd3, -, hlen3⟩ := rci_props hnd2 h3
  rw [hlen2, eG] at hlen3
  obtain ⟨b2, a4, t4, h4⟩ : ∃ b a t,
      randomly_choose_indexes a3 BLACK_AMOUNT_PER_PLAYER t3 = some (b, a, t) :=
    ⟨_, _, _, rci_success (by rw [hlen3, eB]; omega)⟩
  rw [gpm_success h1 h2 h3 h4]
  rfl

/-- Generation fails outright when the board is too small for the four draws:
one of them runs out of pool and the error propagates. -/
theorem gpm_insufficient {s : Nat} (tape : List Nat)
    (h : s < 2 * (GREEN_AMOUNT_PER_PLAYER + BLACK_AMOUNT_PER_PLAYER)) :
    get_player_matrices s tape = none := by
  have eG : GREEN_AMOUNT_PER_PLAYER = 4 := rfl
  have eB : BLACK_AMOUNT_PER_PLAYER = 1 := rfl
  rw [eG, eB] at h
  have hnd0 : (List.range s).Nodup := List.nodup_range s
  have hl0 : (List.range s).length = s := List.length_range s
  unfold get_player_matrices
  split
  · rfl
  rename_i g1 a1 t1 h1
  have hle1 := rci_some_le h1
  rw [hl0, eG] at hle1
  obtain ⟨-, -, -, -, hnd1, -, hlen1⟩ := rci_props hnd0 h1
  rw [hl0, eG] at hlen1
  split
  · rfl
  rename_i b1 a2 t2 h2
  have hle2 := rci_some_le h2
  rw [hlen1, eB] at hle2
  obtain ⟨-, -, -, -, hnd2, -, hlen2⟩ := rci_props hnd1 h2
  rw [hlen1, eB] at hlen2
  split
  · rfl
  rename_i g2 a3 t3 h3
  have hle3 := rci_some_le h3
  rw [hlen2, eG] at hle3
  obtain ⟨-, -, -, -, hnd3, -, hlen3⟩ := rci_props hnd2 h3
  rw [hlen2, eG] at hlen3
  split
  · rfl
  rename_i b2 a4 t4 h4
  have hle4 := rci_some_le h4
  rw [hlen3, eB] at hle4
  omega

/-! ### Claim theorems -/

/-- Player one's board generated at the default size 25 by the all-zero tape:
indexes 0-3 green, index 4 black. -/
def mat1_demo : List Tile :=
  [Tile.GREEN, Tile.GREEN, Tile.GREEN, Tile.GREEN, Tile.BLACK]
    ++ List.replicate 20 Tile.NEUTRAL

/-- Player two's board generated at the default size 25 by the all-zero tape:
indexes 5-8 green, index 9 black. -/
def mat2_demo : List Tile :=
  List.replicate 5 Tile.NEUTRAL
    ++ [Tile.GREEN, Tile.GREEN, Tile.GREEN, Tile.GREEN, Tile.BLACK]
    ++ List.replicate 15 Tile.NEUTRAL

/-- C1: cross-player invariant.  Whenever generation succeeds, at every index
`i` of the board, if one player's board shows GREEN or BLACK then the other
player's board shows NEUTRAL there. -/
theorem claim_C1_cross_player (s : Nat) (tape : List Nat) (m1 m2 : List Tile)
    (heq : get_player_matrices s tape = some (m1, m2)) :
    ∀ i, i < s →
      ((m1.getD i Tile.NEUTRAL = Tile.GREEN ∨ m1.getD i Tile.NEUTRAL = Tile.BLACK) →
        m2.getD i Tile.NEUTRAL = Tile.NEUTRAL) ∧
      ((m2.getD i Tile.NEUTRAL = Tile.GREEN ∨ m2.getD i Tile.NEUTRAL = Tile.BLACK) →
        m1.getD i Tile.NEUTRAL = Tile.NEUTRAL) := by
  obtain ⟨g1, b1, g2, b2, hm1, hm2, -, -, -, -, -, -, -, -, -, -, -, -,
    hd_g1b1, hd_g1g2, hd_g1b2, hd_b1g2, hd_b1b2, hd_g2b2⟩ := gpm_some heq
  subst hm1
  subst hm2
  intro i hi
  rw [generate_mat_getD b1 g1 hi, generate_mat_getD b2 g2 hi]
  constructor
  · intro hS
    by_cases hb1 : i ∈ b1
    · rw [if_neg (fun h => hd_b1b2 hb1 h), if_neg (fun h => hd_b1g2 hb1 h)]
    · by_cases hg1 : i ∈ g1
      · rw [if_neg (fun h => hd_g1b2 hg1 h), if_neg (fun h => hd_g1g2 hg1 h)]
      · rw [if_neg hb1, if_neg hg1] at hS
        rcases hS with hS | hS <;> exact absurd hS (by simp)
  · intro hS
    by_cases hb2 : i ∈ b2
    · rw [if_neg (fun h => hd_b1b2 h hb2), if_neg (fun h => hd_g1b2 h hb2)]
    · by_cases hg2 : i ∈ g2
      · rw [if_neg (fun h => hd_b1g2 h hg2), if_neg (fun h => hd_g1g2 h hg2)]
      · rw [if_neg hb2, if_neg hg2] at hS
        rcases hS with hS | hS <;> exact absurd hS (by simp)

/-- Witness for C1 at size 25 with the all-zero tape, at index 2. -/
theorem claim_C1_witness :
    get_player_matrices 25 [] = some (mat1_demo, mat2_demo) ∧ 2 < 25 ∧
      mat2_demo.getD 2 Tile.NEUTRAL = Tile.NEUTRAL :=
  ⟨by decide, by decide,
    (claim_C1_cross_player 25 [] mat1_demo mat2_demo (by decide) 2
      (by decide)).1 (Or.inl (by decide))⟩

/-- C3: allocator postcondition.  For every duplicate-free pool and every
requested amount not exceeding the pool size, the draw succeeds with exactly
`amount` distinct indexes, all previously in the pool, and the pool afterwards
is the pool before minus the chosen indexes (its size dropping by exactly
`amount`). -/
theorem claim_C3_allocator_post (pool : List Nat) (amount : Nat)
    (tape : List Nat) (hnd : pool.Nodup) (hle : amount ≤ pool.length) :
    ∃ chosen pool' tape',
      randomly_choose_indexes pool amount tape = some (chosen, pool', tape') ∧
      chosen.Nodup ∧ chosen.length = amount ∧ (∀ x ∈ chosen, x ∈ pool) ∧
      (∀ x, x ∈ pool' ↔ x ∈ pool ∧ x ∉ chosen) ∧
      pool'.length = pool.length - amount := by
  obtain ⟨h1, h2, h3, -, -, h4, h5⟩ := rci_props hnd (rci_success hle)
  exact ⟨_, _, _, rci_success hle, h1, h2, h3, h4, h5⟩

/-- Witness for C3: drawing 2 indexes from the pool `[0, 1, 2]`. -/
theorem claim_C3_witness :
    ([0, 1, 2] : List Nat).Nodup ∧ 2 ≤ ([0, 1, 2] : List Nat).length ∧
    ∃ chosen pool' tape',
      randomly_choose_indexes [0, 1, 2] 2 [] = some (chosen, pool', tape') ∧
      chosen.Nodup ∧ chosen.length = 2 ∧
      (∀ x ∈ chosen, x ∈ ([0, 1, 2] : List Nat)) ∧
      (∀ x, x ∈ pool' ↔ x ∈ ([0, 1, 2] : List Nat) ∧ x ∉ chosen) ∧
      pool'.length = ([0, 1, 2] : List Nat).length - 2 :=
  ⟨by decide, by decide, claim_C3_allocator_post [0, 1, 2] 2 [] (by decide) (by decide)⟩

/-- C4: matrix builder definition.  For every pair of index sets and target
size, `generate_mat` produces exactly `size` tile categories where position
`i` is BLACK when `i` is in the black set (checked first, so BLACK wins on
overlap), otherwise GREEN when in the green set, otherwise NEUTRAL. -/
theorem claim_C4_matrix_builder (black green : List Nat) (n : Nat) :
    (generate_mat black green n).length = n ∧
    ∀ i, i < n → (generate_mat black green n).getD i Tile.NEUTRAL =
      (if i ∈ black then Tile.BLACK
       else if i ∈ green then Tile.GREEN else Tile.NEUTRAL) :=
  ⟨generate_mat_length black green n, fun _ hi => generate_mat_getD black green hi⟩

/-- Witness for C4 at an input where index 1 lies in both sets: BLACK wins. -/
theorem claim_C4_witness :
    1 < 3 ∧ (generate_mat [1] [0, 1] 3).getD 1 Tile.NEUTRAL =
      (if 1 ∈ ([1] : List Nat) then Tile.BLACK
       else if 1 ∈ ([0, 1] : List Nat) then Tile.GREEN else Tile.NEUTRAL) :=
  ⟨by decide, (claim_C4_matrix_builder [1] [0, 1] 3).2 1 (by decide)⟩

/-- C7: determinism under a fixed random source.  Two runs consuming the same
random tape produce identical pairs of boards; the embedding makes the tape
the only nondeterministic input of `get_player_matrices`, mirroring the fact
that `random.sample` is the script's only source of randomness. -/
theorem claim_C7_determinism (s : Nat) (t1 t2 : List Nat) (h : t1 = t2) :
    get_player_matrices s t1 = get_player_matrices s t2 := by
  rw [h]

/-- Witness for C7 at size 25 with the empty tape. -/
theorem claim_C7_witness :
    ([] : List Nat) = ([] : List Nat) ∧
      get_player_matrices 25 [] = get_player_matrices 25 [] :=
  ⟨rfl, claim_C7_determinism 25 [] [] rfl⟩

/-- C9: out-of-range tolerance of the matrix builder.  `generate_mat` is a
total function (no error is possible); indexes at or beyond the board size
never match a position, so the result equals the result for the sets
restricted to `[0, size)`, and still has length exactly `size`. -/
theorem claim_C9_out_of_range (black green : List Nat) (n : Nat) :
    generate_mat black green n
      = generate_mat (black.filter (fun x => decide (x < n)))
          (green.filter (fun x => decide (x < n))) n ∧
    (generate_mat black green n).length = n := by
  refine ⟨?_, generate_mat_length black green n⟩
  unfold generate_mat
  apply List.map_congr_left
  intro i hi
  have hin : i < n := List.mem_range.mp hi
  simp [List.mem_filter, hin]

/-- C10: frame property of the allocator.  After a successful draw from a
duplicate-free pool, the surviving elements keep their relative order (the
updated pool is a sublist of the old one), and exactly the chosen elements
disappeared. -/
theorem claim_C10_frame (pool : List Nat) (amount : Nat) (tape : List Nat)
    (chosen pool' tape' : List Nat) (hnd : pool.Nodup)
    (heq : randomly_choose_indexes pool amount tape = some (chosen, pool', tape')) :
    List.Sublist pool' pool ∧ (∀ x, x ∈ pool' ↔ x ∈ pool ∧ x ∉ chosen) := by
  obtain ⟨-, -, -, hsub, -, hiff, -⟩ := rci_props hnd heq
  exact ⟨hsub, hiff⟩

/-- Witness for C10: drawing one index from `[5, 6, 7, 8]` with tape `[1]`
removes `6` and keeps `[5, 7, 8]` in order. -/
theorem claim_C10_witness :
    ([5, 6, 7, 8] : List Nat).Nodup ∧
    randomly_choose_indexes [5, 6, 7, 8] 1 [1] = some ([6], [5, 7, 8], []) ∧
    List.Sublist [5, 7, 8] [5, 6, 7, 8] :=
  ⟨by decide, by decide,
    (claim_C10_frame [5, 6, 7, 8] 1 [1] [6] [5, 7, 8] [] (by decide)
      (by decide)).1⟩

/-- The special positions of a board are listed without duplicates. -/
theorem special_indexes_nodup (m : List Tile) : (special_indexes m).Nodup :=
  (List.nodup_range m.length).filter _

/-- A position of a generated board is special exactly when it is in range and
listed among the black or green indexes. -/
theorem mem_special_indexes_generate_mat (b g : List Nat) {n i : Nat} :
    i ∈ special_indexes (generate_mat b g n) ↔ i < n ∧ (i ∈ b ∨ i ∈ g) := by
  unfold special_indexes
  rw [generate_mat_length, List.mem_filter, List.mem_range]
  constructor
  · rintro ⟨hin, hp⟩
    refine ⟨hin, ?_⟩
    rw [decide_eq_true_iff, generate_mat_getD b g hin] at hp
    by_cases hb : i ∈ b
    · exact Or.inl hb
    · by_cases hg : i ∈ g
      · exact Or.inr hg
      · rw [if_neg hb, if_neg hg] at hp
        exact absurd rfl hp
  · rintro ⟨hin, hbg⟩
    refine ⟨hin, ?_⟩
    rw [decide_eq_true_iff, generate_mat_getD b g hin]
    by_cases hb : i ∈ b
    · rw [if_pos hb]
      simp
    · rcases hbg with hbg | hg
      · exact absurd hbg hb
      · rw [if_neg hb, if_pos hg]
        simp

/-- For disjoint, duplicate-free, in-range index lists, the special positions
of the generated board are a permutation of the black and green indexes. -/
theorem special_indexes_perm (b g : List Nat) (n : Nat) (hbnd : b.Nodup)
    (hgnd : g.Nodup) (hdisj : List.Disjoint b g) (hblt : ∀ x ∈ b, x < n)
    (hglt : ∀ x ∈ g, x < n) :
    (special_indexes (generate_mat b g n)).Perm (b ++ g) := by
  refine (List.perm_ext_iff_of_nodup (special_indexes_nodup _) ?_).mpr ?_
  · rw [List.nodup_append]
    exact ⟨hbnd, hgnd, hdisj⟩
  · intro a
    rw [mem_special_indexes_generate_mat, List.mem_append]
    constructor
    · rintro ⟨-, h⟩
      exact h
    · intro h
      refine ⟨?_, h⟩
      rcases h with h | h
      · exact hblt a h
      · exact hglt a h

/-- C2: per-board counts.  Whenever generation succeeds, each board has length
exactly `size`, exactly GREEN_AMOUNT_PER_PLAYER GREEN entries and exactly
BLACK_AMOUNT_PER_PLAYER BLACK entries; at the default size 25 each board has
exactly 20 NEUTRAL entries and the 10 special indexes across both boards are
all distinct. -/
theorem claim_C2_counts (s : Nat) (tape : List Nat) (m1 m2 : List Tile)
    (heq : get_player_matrices s tape = some (m1, m2)) :
    m1.length = s ∧ m2.length = s ∧
    m1.count Tile.GREEN = GREEN_AMOUNT_PER_PLAYER ∧
    m1.count Tile.BLACK = BLACK_AMOUNT_PER_PLAYER ∧
    m2.count Tile.GREEN = GREEN_AMOUNT_PER_PLAYER ∧
    m2.count Tile.BLACK = BLACK_AMOUNT_PER_PLAYER ∧
    (s = 25 →
      m1.count Tile.NEUTRAL = 20 ∧ m2.count Tile.NEUTRAL = 20 ∧
      (special_indexes m1 ++ special_indexes m2).Nodup ∧
      (special_indexes m1 ++ special_indexes m2).length = 10) := by
  obtain ⟨g1, b1, g2, b2, hm1, hm2, hg1nd, hb1nd, hg2nd, hb2nd,
    hg1len, hb1len, hg2len, hb2len, hg1lt, hb1lt, hg2lt, hb2lt,
    hd_g1b1, hd_g1g2, hd_g1b2, hd_b1g2, hd_b1b2, hd_g2b2⟩ := gpm_some heq
  subst hm1
  subst hm2
  have hcG1 : (generate_mat b1 g1 s).count Tile.GREEN = GREEN_AMOUNT_PER_PLAYER := by
    rw [count_generate_mat_green b1 g1 s hg1nd hg1lt
      (fun x hx hb => hd_g1b1 hx hb), hg1len]
  have hcB1 : (generate_mat b1 g1 s).count Tile.BLACK = BLACK_AMOUNT_PER_PLAYER := by
    rw [count_generate_mat_black b1 g1 s hb1nd hb1lt, hb1len]
  have hcG2 : (generate_mat b2 g2 s).count Tile.GREEN = GREEN_AMOUNT_PER_PLAYER := by
    rw [count_generate_mat_green b2 g2 s hg2nd hg2lt
      (fun x hx hb => hd_g2b2 hx hb), hg2len]
  have hcB2 : (generate_mat b2 g2 s).count Tile.BLACK = BLACK_AMOUNT_PER_PLAYER := by
    rw [count_generate_mat_black b2 g2 s hb2nd hb2lt, hb2len]
  refine ⟨generate_mat_length b1 g1 s, generate_mat_length b2 g2 s,
    hcG1, hcB1, hcG2, hcB2, ?_⟩
  intro hs
  subst hs
  have eG : GREEN_AMOUNT_PER_PLAYER = 4 := rfl
  have eB : BLACK_AMOUNT_PER_PLAYER = 1 := rfl
  have hsplit1 := count_tiles_split (generate_mat b1 g1 25)
  have hsplit2 := count_tiles_split (generate_mat b2 g2 25)
  rw [generate_mat_length, hcG1, hcB1, eG, eB] at hsplit1
  rw [generate_mat_length, hcG2, hcB2, eG, eB] at hsplit2
  have hsp1 := special_indexes_perm b1 g1 25 hb1nd hg1nd hd_g1b1.symm hb1lt hg1lt
  have hsp2 := special_indexes_perm b2 g2 25 hb2nd hg2nd hd_g2b2.symm hb2lt hg2lt
  refine ⟨by omega, by omega, ?_, ?_⟩
  · rw [List.nodup_append]
    refine ⟨special_indexes_nodup _, special_indexes_nodup _, ?_⟩
    intro x hx1 hx2
    obtain ⟨-, hx1⟩ := (mem_special_indexes_generate_mat b1 g1).mp hx1
    obtain ⟨-, hx2⟩ := (mem_special_indexes_generate_mat b2 g2).mp hx2
    rcases hx1 with hx1 | hx1 <;> rcases hx2 with hx2 | hx2
    · exact hd_b1b2 hx1 hx2
    · exact hd_b1g2 hx1 hx2
    · exact hd_g1b2 hx1 hx2
    · exact hd_g1g2 hx1 hx2
  · rw [List.length_append, hsp1.length_eq, hsp2.length_eq,
      List.length_append, List.length_append, hg1len, hb1len, hg2len, hb2len,
      eG, eB]

/-- Witness for C2 at size 25 with the all-zero tape. -/
theorem claim_C2_witness :
    get_player_matrices 25 [] = some (mat1_demo, mat2_demo) ∧
    (mat1_demo.length = 25 ∧ mat2_demo.length = 25 ∧
     mat1_demo.count Tile.GREEN = GREEN_AMOUNT_PER_PLAYER ∧
     mat1_demo.count Tile.BLACK = BLACK_AMOUNT_PER_PLAYER ∧
     mat2_demo.count Tile.GREEN = GREEN_AMOUNT_PER_PLAYER ∧
     mat2_demo.count Tile.BLACK = BLACK_AMOUNT_PER_PLAYER ∧
     (25 = 25 →
       mat1_demo.count Tile.NEUTRAL = 20 ∧ mat2_demo.count Tile.NEUTRAL = 20 ∧
       (special_indexes mat1_demo ++ special_indexes mat2_demo).Nodup ∧
       (special_indexes mat1_demo ++ special_indexes mat2_demo).length = 10)) :=
  ⟨by decide, claim_C2_counts 25 [] mat1_demo mat2_demo (by decide)⟩

/-- C5: insufficient-pool failure.  A draw requesting more indexes than remain
in the pool fails (the ValueError of `random.sample`, the spec's
InsufficientIndexes), and in particular generation at any board size below
2 * (GREEN_AMOUNT_PER_PLAYER + BLACK_AMOUNT_PER_PLAYER) = 10 returns no
boards at all — no partial board escapes. -/
theorem claim_C5_insufficient_pool :
    (∀ (pool : List Nat) (amount : Nat) (tape : List Nat),
      pool.length < amount →
      randomly_choose_indexes pool amount tape = none) ∧
    (∀ (s : Nat) (tape : List Nat),
      s < 2 * (GREEN_AMOUNT_PER_PLAYER + BLACK_AMOUNT_PER_PLAYER) →
      get_player_matrices s tape = none) :=
  ⟨fun _ _ _ h => rci_insufficient h, fun _ tape h => gpm_insufficient tape h⟩

/-- Witness for C5: an oversized draw from a 2-element pool and a generation
run at size 9 both fail. -/
theorem claim_C5_witness :
    (([0, 1] : List Nat).length < 3 ∧
      randomly_choose_indexes [0, 1] 3 [] = none) ∧
    (9 < 2 * (GREEN_AMOUNT_PER_PLAYER + BLACK_AMOUNT_PER_PLAYER) ∧
      get_player_matrices 9 [] = none) :=
  ⟨⟨by decide, claim_C5_insufficient_pool.1 [0, 1] 3 [] (by decide)⟩,
   ⟨by decide, claim_C5_insufficient_pool.2 9 [] (by decide)⟩⟩

/-- C6 counterexample: 12 is not a perfect square, yet `get_player_matrices`
at size 12 succeeds — the generator performs no perfect-square validation
before (or after) its draws. -/
theorem claim_C6_counterexample :
    Nat.sqrt 12 * Nat.sqrt 12 ≠ 12 ∧
      (get_player_matrices 12 []).isSome = true := by
  have h12 : Nat.sqrt 12 = 3 := by
    rw [show (12 : Nat) = 3 * 3 + 3 from rfl, Nat.sqrt_add_eq 3 (by omega)]
  exact ⟨by rw [h12]; decide, by decide⟩

/-- C6 amended: the perfect-square check lives in the export step, not in the
generator.  `write_matrix_to_csv` fails on every board whose length is not a
perfect square, while `get_player_matrices` itself succeeds on every size
large enough for the four draws, square or not. -/
theorem claim_C6_amended :
    (∀ matrix : List Tile,
      Nat.sqrt matrix.length * Nat.sqrt matrix.length ≠ matrix.length →
      write_matrix_to_csv matrix = none) ∧
    (∀ (s : Nat) (tape : List Nat),
      2 * (GREEN_AMOUNT_PER_PLAYER + BLACK_AMOUNT_PER_PLAYER) ≤ s →
      (get_player_matrices s tape).isSome = true) := by
  constructor
  · intro matrix h
    rw [write_matrix_to_csv_eq, if_neg h]
  · intro s tape h
    exact gpm_isSome tape h

/-- Witness for C6 amended: export of a length-2 board fails; generation at
the non-square size 12 succeeds. -/
theorem claim_C6_witness :
    (Nat.sqrt 2 * Nat.sqrt 2 ≠ 2 ∧
      write_matrix_to_csv [Tile.NEUTRAL, Tile.NEUTRAL] = none) ∧
    (2 * (GREEN_AMOUNT_PER_PLAYER + BLACK_AMOUNT_PER_PLAYER) ≤ 12 ∧
      (get_player_matrices 12 []).isSome = true) := by
  have h2 : Nat.sqrt 2 = 1 := by
    rw [show (2 : Nat) = 1 * 1 + 1 from rfl, Nat.sqrt_add_eq 1 (by omega)]
  refine ⟨⟨by rw [h2]; decide, claim_C6_amended.1 [Tile.NEUTRAL, Tile.NEUTRAL] ?_⟩,
    ⟨by decide, claim_C6_amended.2 12 [] (by decide)⟩⟩
  show Nat.sqrt 2 * Nat.sqrt 2 ≠ 2
  rw [h2]
  decide

/-- C8: export format.  For a board whose length is the perfect square
`r * r`, the CSV export is exactly `r` text rows of `r` cells each, in
row-major order (cell `(row, col)` holds entry `row * r + col`), each cell
being the tile category's name followed by a comma separator, and each row
terminated by a carriage-return-plus-linefeed ending. -/
theorem claim_C8_export_format (matrix : List Tile) (r : Nat)
    (h : matrix.length = r * r) :
    write_matrix_to_csv matrix
      = some (String.join ((List.range r).map (fun row =>
          String.join ((List.range r).map (fun col =>
            (matrix.getD (row * r + col) Tile.NEUTRAL).name ++ ",")) ++ "\r\n"))) := by
  have hsqrt : Nat.sqrt matrix.length = r := by rw [h, Nat.sqrt_eq]
  rw [write_matrix_to_csv_eq, hsqrt, if_pos h.symm]
  have hbody : (fun (acc : String) (row : Nat) =>
      ((List.range r).foldl (fun acc2 col =>
        acc2 ++ ((matrix.getD (row * r + col) Tile.NEUTRAL).name ++ ",")) acc)
        ++ "\r\n")
    = fun (acc : String) (row : Nat) => acc ++
        (String.join ((List.range r).map (fun col =>
          (matrix.getD (row * r + col) Tile.NEUTRAL).name ++ ",")) ++ "\r\n") := by
    funext acc row
    rw [foldl_append_map, String.append_assoc]
  rw [hbody, foldl_append_map, String.empty_append]

/-- Witness for C8 on a concrete 2-by-2 board. -/
theorem claim_C8_witness :
    ([Tile.GREEN, Tile.BLACK, Tile.NEUTRAL, Tile.NEUTRAL] : List Tile).length
      = 2 * 2 ∧
    write_matrix_to_csv [Tile.GREEN, Tile.BLACK, Tile.NEUTRAL, Tile.NEUTRAL]
      = some (String.join ((List.range 2).map (fun row =>
          String.join ((List.range 2).map (fun col =>
            (([Tile.GREEN, Tile.BLACK, Tile.NEUTRAL,
               Tile.NEUTRAL] : List Tile).getD
              (row * 2 + col) Tile.NEUTRAL).name ++ ",")) ++ "\r\n"))) :=
  ⟨rfl, claim_C8_export_format
    [Tile.GREEN, Tile.BLACK, Tile.NEUTRAL, Tile.NEUTRAL] 2 rfl⟩
